import Mathlib

/-
Verification of the bottle-photos core (metadata tagging, timestamp
resolution, and the non-destructive photo operation pipeline).

Shallow embedding conventions:
  - Python strings are modelled as lists of Unicode code points
    (List Nat); the helper strN turns a Lean string literal into one.
  - Python floats are modelled as exact rationals.  Python int(x)
    truncation toward zero is pyInt, the built-in round (banker
    rounding, half to even) is pyRound, and the float modulo operator
    is pyMod.
  - Fallible Python code (raising ValueError, KeyError, TypeError,
    ZeroDivisionError) is modelled with Except Str.
  - Python dicts that the code only reads through get / membership are
    modelled as association lists with dictGet.
-/

namespace BP

/-- Code points of a string literal: the model of a Python str value. -/
abbrev Str := List Nat

/-- Turn a Lean string literal into its code point list. -/
def strN (s : String) : Str := s.data.map Char.toNat

/-- Python str.isupper test for one ASCII code point (A to Z). -/
def isUpperN (c : Nat) : Bool := 65 ≤ c && c ≤ 90

/-- Whitespace code points stripped by Python str.strip and matched by
the regex class backslash-s: space, tab, newline, carriage return,
vertical tab, form feed. -/
def isWSN (c : Nat) : Bool :=
  c = 32 || c = 9 || c = 10 || c = 13 || c = 11 || c = 12

/-- Python str.isdigit for ASCII digits 0 to 9. -/
def isDigitN (c : Nat) : Bool := 48 ≤ c && c ≤ 57

/-- Lowercasing of one code point, the ASCII case of Python str.lower. -/
def lowerN (c : Nat) : Nat := if 65 ≤ c ∧ c ≤ 90 then c + 32 else c

/-- Model of Python str.lower. -/
def toLowerN (s : Str) : Str := s.map lowerN

/-- Model of Python str.strip: drop whitespace from both ends. -/
def stripN (s : Str) : Str :=
  ((s.dropWhile isWSN).reverse.dropWhile isWSN).reverse

/-- Fuel-driven worker for replaceAllN; the fuel starts at the length
of the subject string, which suffices for a nonempty pattern. -/
def replaceGo (pat : Str) : Nat → Str → Str
  | 0, rest => rest
  | _ + 1, [] => []
  | fuel + 1, c :: t =>
      if pat.isPrefixOf (c :: t) then replaceGo pat fuel ((c :: t).drop pat.length)
      else c :: replaceGo pat fuel t

/-- Model of Python str.replace(pat, empty) and of re.sub with a plain
word pattern and empty replacement: delete every non-overlapping
occurrence of pat, scanning left to right. -/
def replaceAllN (pat : Str) (s : Str) : Str := replaceGo pat s.length s

/-- Model of re.sub with an end-anchored literal pattern (ed$, is$) and
empty replacement: remove one trailing occurrence of pat. -/
def subEndPat (pat : Str) (t : Str) : Str :=
  if pat.isSuffixOf t then t.take (t.length - pat.length) else t

/-- Numeric value of a list of ASCII digit code points. -/
def digitsVal (ds : Str) : Nat := ds.foldl (fun a c => a * 10 + (c - 48)) 0

/-- Code point of a decimal digit. -/
def digitN (d : Nat) : Nat := 48 + d % 10

/-- Fuel-driven decimal rendering of a natural number, most significant
digit first. -/
def natToCharsAux : Nat → Nat → Str
  | 0, _ => []
  | fuel + 1, n =>
      if n < 10 then [digitN n]
      else natToCharsAux fuel (n / 10) ++ [digitN (n % 10)]

/-- Decimal digits of a natural number, the model of Python str(n) for
a nonnegative int. -/
def natToChars (n : Nat) : Str := natToCharsAux (n + 1) n

/-- Model of Python str(k) for an int, including the minus sign. -/
def intToChars (k : ℤ) : Str :=
  if k < 0 then 45 :: natToChars k.natAbs else natToChars k.natAbs

/-- Zero padding as done by a 0Nd format spec. -/
def padZeroN (w : Nat) (n : Nat) : Str :=
  List.replicate (w - (natToChars n).length) 48 ++ natToChars n

/-- Python int(x) applied to a float: truncation toward zero. -/
def pyInt (q : ℚ) : ℤ := if 0 ≤ q then ⌊q⌋ else -⌊-q⌋

/-- Python round(x) to an int: nearest integer, ties to even. -/
def pyRound (q : ℚ) : ℤ :=
  let n := ⌊q⌋
  let r := q - n
  if r < 1 / 2 then n
  else if 1 / 2 < r then n + 1
  else if n % 2 = 0 then n else n + 1

/-- Python float modulo: the result carries the sign of the divisor. -/
def pyMod (q m : ℚ) : ℚ := q - m * (⌊q / m⌋ : ℤ)

/-- Model of Python float(s) on a string: optional surrounding
whitespace, an optional sign, then digits with an optional fractional
part.  (Exponent forms and inf or nan literals do not occur in the
metadata values this code handles.) -/
def pyFloatOfStr (s : Str) : Except Str ℚ :=
  let err : Except Str ℚ :=
    .error (strN "ValueError: could not convert string to float")
  let t := stripN s
  let sgn : ℚ := if t.headD 0 = 45 then -1 else 1
  let t := if t.headD 0 = 45 ∨ t.headD 0 = 43 then t.tail else t
  let ip := t.takeWhile isDigitN
  let rest := t.dropWhile isDigitN
  match rest with
  | [] => if ip = [] then err else .ok (sgn * digitsVal ip)
  | 46 :: r =>
      let fp := r.takeWhile isDigitN
      if r.dropWhile isDigitN ≠ [] then err
      else if ip = [] ∧ fp = [] then err
      else .ok (sgn * ((digitsVal ip : ℚ) + (digitsVal fp : ℚ) / 10 ^ fp.length))
  | _ => err

/-- Model of Python int(s) on a string: optional surrounding whitespace,
an optional sign, then decimal digits only. -/
def pyIntOfStr (s : Str) : Except Str ℤ :=
  let err : Except Str ℤ :=
    .error (strN "ValueError: invalid literal for int with base 10")
  let t := stripN s
  let sgn : ℤ := if t.headD 0 = 45 then -1 else 1
  let t := if t.headD 0 = 45 ∨ t.headD 0 = 43 then t.tail else t
  if t = [] then err
  else if t.all isDigitN then .ok (sgn * digitsVal t)
  else err

/-- Fuel-driven long division producing the fractional decimal digits
of r over d. -/
def decFracAux : Nat → Nat → Nat → Str
  | 0, _, _ => []
  | _ + 1, 0, _ => []
  | fuel + 1, r, d => digitN (r * 10 / d) :: decFracAux fuel (r * 10 % d) d

/-- Model of Python str(x) for a float x: sign, integer part, a dot and
at least one fractional digit.  Exact for the decimal-valued floats the
EXIF pipeline handles (fuel 17 matches double precision). -/
def pyReprQ (q : ℚ) : Str :=
  let sgn : Str := if q < 0 then [45] else []
  let m := |q|
  let ip := (⌊m⌋).toNat
  let fr := m - (ip : ℚ)
  let fd : Str := if fr = 0 then [48] else decFracAux 17 fr.num.toNat fr.den
  sgn ++ natToChars ip ++ [46] ++ fd

/-- A loosely typed metadata value as delivered by the exiftool JSON:
an integer, a float, or a string. -/
inductive Val where
  | i (k : ℤ)
  | f (q : ℚ)
  | s (t : Str)
deriving DecidableEq

/-- Association list lookup, the model of dict.get on the metadata
mappings this code only reads. -/
def dictGet (m : List (Str × α)) (k : Str) : Option α :=
  (m.find? (fun p => p.1 == k)).map (fun p => p.2)

/-- Model of Python str(v) for a metadata value. -/
def pyStrOfVal : Val → Str
  | .i k => intToChars k
  | .f q => pyReprQ q
  | .s t => t

/-- Shared tail of the most-significant-digit rounding: nint is the
integer value extracted from n; values below 10 to the digits power are
returned unchanged; otherwise the shift is 10 to the power
(len(str(n)) - digits), computed from the string form of the ORIGINAL
argument n, and the result is int(shift * round(nint / shift)). -/
def msdCore (n : Val) (nint : ℤ) (digits : Nat) : ℤ :=
  if nint < 10 ^ digits then nint
  else
    let shift : ℚ := (10 : ℚ) ^ (((pyStrOfVal n).length : ℤ) - (digits : ℤ))
    pyInt (shift * (pyRound ((nint : ℚ) / shift) : ℚ))

/-- Embedding of illuminatus metadata._round_to_most_significant_digits:
coerce n to an int (floats truncate toward zero, strings contribute
their leading digit run per the regex, a string with no leading digits
raises ValueError), then apply msdCore. -/
def _round_to_most_significant_digits (n : Val) (digits : Nat) : Except Str ℤ :=
  match n with
  | .i k => .ok (msdCore n k digits)
  | .f q => .ok (msdCore n (pyInt q) digits)
  | .s t =>
      let ds := t.takeWhile isDigitN
      if ds = [] then .error (strN "ValueError")
      else .ok (msdCore n (digitsVal ds : ℤ) digits)

/-- A calendar timestamp with second precision, the model of an arrow
datetime value. -/
structure Arrow where
  year : Nat
  month : Nat
  day : Nat
  hour : Nat
  minute : Nat
  second : Nat
deriving DecidableEq

/-- Gregorian leap year rule, as applied by the datetime library. -/
def isLeapYear (y : Nat) : Bool := y % 4 = 0 && (y % 100 ≠ 0 || y % 400 = 0)

/-- Number of days in a month of a given year. -/
def daysInMonth (y m : Nat) : Nat :=
  if m = 2 then (if isLeapYear y then 29 else 28)
  else if m = 4 ∨ m = 6 ∨ m = 9 ∨ m = 11 then 30
  else 31

/-- Parse a 19 character timestamp with the given date separator code
point (45 for the dash layout, 58 for the colon layout), with the
calendar validation the datetime constructor performs. -/
def parseWithSep (sep : Nat) (s : Str) : Option Arrow :=
  match s with
  | [y1, y2, y3, y4, a1, m1, m2, a2, d1, d2, sp, h1, h2, c1, n1, n2, c2, e1, e2] =>
      if ([y1, y2, y3, y4, m1, m2, d1, d2, h1, h2, n1, n2, e1, e2].all isDigitN
          && a1 == sep && a2 == sep && sp == 32 && c1 == 58 && c2 == 58) then
        let y := digitsVal [y1, y2, y3, y4]
        let mo := digitsVal [m1, m2]
        let d := digitsVal [d1, d2]
        let h := digitsVal [h1, h2]
        let mi := digitsVal [n1, n2]
        let se := digitsVal [e1, e2]
        if 1 ≤ y ∧ y ≤ 9999 ∧ 1 ≤ mo ∧ mo ≤ 12 ∧ 1 ≤ d ∧ d ≤ daysInMonth y mo
            ∧ h ≤ 23 ∧ mi ≤ 59 ∧ se ≤ 59 then
          some ⟨y, mo, d, h, mi, se⟩
        else none
      else none
  | _ => none

/-- Model of arrow.get(value, TIMESTAMP_FORMATS): try the layout
YYYY-MM-DD HH:mm:ss, then YYYY:MM:DD HH:mm:ss; none when both fail,
standing for the ValueError the caller catches. -/
def parseTS (s : Str) : Option Arrow :=
  match parseWithSep 45 s with
  | some a => some a
  | none => parseWithSep 58 s

/-- The TIMESTAMP_KEYS priority list of illuminatus metadata. -/
def timestampKeys : List Str :=
  [strN "DateTimeOriginal", strN "CreateDate", strN "ModifyDate", strN "FileModifyDate"]

/-- The fixed fallback timestamp arrow.get(1000-01-01 00:00:00). -/
def arrowSentinel : Arrow := ⟨1000, 1, 1, 0, 0, 0⟩

/-- The key loop of get_timestamp: first key whose present value
parses; a present value that fails to parse falls through to the next
key. -/
def metaLoop (meta : List (Str × Str)) : List Str → Option Arrow
  | [] => none
  | k :: ks =>
      match dictGet meta k with
      | some v =>
          match parseTS v with
          | some a => some a
          | none => metaLoop meta ks
      | none => metaLoop meta ks

/-- Embedding of illuminatus metadata.get_timestamp.  The file system
is abstracted to mtime: the modification time of the path, or none
when the file does not exist (os.path.getmtime raising
FileNotFoundError). -/
def get_timestamp (meta : List (Str × Str)) (mtime : Option Arrow) : Arrow :=
  match metaLoop meta timestampKeys with
  | some a => a
  | none =>
      match mtime with
      | some t => t
      | none => arrowSentinel

/-- Restatement of the spec wording for the TimestampResolver contract
(priority list, first parseable value, mtime fallback, sentinel), used
as the comparison side of the refinement theorem. -/
def resolveSpec (meta : List (Str × Str)) (mtime : Option Arrow) : Arrow :=
  (((timestampKeys.findSome? fun k => (dictGet meta k).bind parseTS).orElse
      fun _ => mtime).getD arrowSentinel)

/-- Month names as produced by the arrow MMMM format. -/
def monthNames : List Str :=
  [strN "January", strN "February", strN "March", strN "April", strN "May",
   strN "June", strN "July", strN "August", strN "September", strN "October",
   strN "November", strN "December"]

/-- Weekday names as produced by the arrow dddd format, indexed by the
datetime weekday convention Monday = 0. -/
def dayNames : List Str :=
  [strN "Monday", strN "Tuesday", strN "Wednesday", strN "Thursday",
   strN "Friday", strN "Saturday", strN "Sunday"]

/-- English ordinal suffix as produced by the arrow Do format. -/
def ordinalSuffix (n : Nat) : Str :=
  if n % 100 = 11 ∨ n % 100 = 12 ∨ n % 100 = 13 then strN "th"
  else if n % 10 = 1 then strN "st"
  else if n % 10 = 2 then strN "nd"
  else if n % 10 = 3 then strN "rd"
  else strN "th"

/-- Days of the proleptic Gregorian calendar before January 1 of year y. -/
def daysBeforeYear (y : Nat) : Nat :=
  365 * (y - 1) + (y - 1) / 4 + (y - 1) / 400 - (y - 1) / 100

/-- Days of year y before the first of month m. -/
def daysBeforeMonth (y m : Nat) : Nat :=
  ((List.range (m - 1)).map fun i => daysInMonth y (i + 1)).sum

/-- Day count of a timestamp from 0001-01-01 (which is day zero, a
Monday in the proleptic Gregorian calendar). -/
def toOrdinalDay (a : Arrow) : Nat :=
  daysBeforeYear a.year + daysBeforeMonth a.year a.month + (a.day - 1)

/-- The datetime weekday convention: Monday = 0 through Sunday = 6. -/
def weekdayIdx (a : Arrow) : Nat := toOrdinalDay a % 7

/-- Hour on the 12 hour clock as produced by the arrow h format. -/
def hour12 (h : Nat) : Nat := if h % 12 = 0 then 12 else h % 12

/-- The arrow a format: am before noon, pm from noon on. -/
def meridiem (h : Nat) : Str := if h % 24 < 12 then strN "am" else strN "pm"

/-- Hour of day of stamp.shift(minutes=11), the timestamp shifted
forward by 11 minutes.  Only the hour of day is needed because the
hour tag reads nothing else from the shifted timestamp (a date
rollover at 23:49 or later does not change its hour or meridiem). -/
def shiftedHourOfDay (a : Arrow) : Nat :=
  ((a.hour * 60 + a.minute + 11) % 1440) / 60

/-- Embedding of illuminatus metadata.gen_datetime_tags: no tags for an
absent timestamp, otherwise exactly the year, month, day-ordinal,
weekday and hour-bucket tags, in yield order.  The hour bucket uses the
timestamp shifted forward by 11 minutes. -/
def gen_datetime_tags : Option Arrow → List Str
  | none => []
  | some a =>
      [strN "y:" ++ padZeroN 4 a.year,
       toLowerN (strN "m:" ++ padZeroN 2 a.month ++ [58]
         ++ monthNames.getD (a.month - 1) (strN "January")),
       toLowerN (strN "d:" ++ padZeroN 2 a.day ++ [58]
         ++ natToChars a.day ++ ordinalSuffix a.day),
       toLowerN (strN "w:" ++ natToChars (weekdayIdx a) ++ [58]
         ++ dayNames.getD (weekdayIdx a) (strN "Monday")),
       toLowerN (strN "h:" ++ padZeroN 2 (shiftedHourOfDay a) ++ [58]
         ++ natToChars (hour12 (shiftedHourOfDay a)) ++ meridiem (shiftedHourOfDay a))]

/-- An operation record of the edit pipeline: the key plus the union of
the per-key parameter fields, absent fields being none. -/
structure Op where
  key : Str
  degrees : Option ℚ
  level : Option ℚ
  box : Option (ℚ × ℚ × ℚ × ℚ)
  cutoff : Option ℚ
deriving DecidableEq

/-- The operation pushed by the rotate mutator. -/
def opRotate (d : ℚ) : Op := Op.mk (strN "rotate") (some d) none none none

/-- Embedding of Photo.rotate: when the list ends in a rotate, pop it
and fold its degrees into the new one; the pushed rotate always stores
degrees modulo 360.  Reading the degrees of a rotate entry that lacks
them would raise a KeyError. -/
def rotateMut (ops : List Op) (degrees : ℚ) : Except Str (List Op) :=
  match ops.getLast? with
  | some last =>
      if last.key = strN "rotate" then
        match last.degrees with
        | some d0 => .ok (ops.dropLast ++ [opRotate (pyMod (degrees + d0) 360)])
        | none => .error (strN "KeyError: degrees")
      else .ok (ops ++ [opRotate (pyMod degrees 360)])
  | none => .ok (ops ++ [opRotate (pyMod degrees 360)])

/-- Embedding of Photo.saturation: unconditional append. -/
def saturationMut (ops : List Op) (level : ℚ) : List Op :=
  ops ++ [Op.mk (strN "saturation") none (some level) none none]

/-- Embedding of Photo.contrast: unconditional append. -/
def contrastMut (ops : List Op) (level : ℚ) : List Op :=
  ops ++ [Op.mk (strN "contrast") none (some level) none none]

/-- Embedding of Photo.brightness: unconditional append. -/
def brightnessMut (ops : List Op) (level : ℚ) : List Op :=
  ops ++ [Op.mk (strN "brightness") none (some level) none none]

/-- Embedding of Photo.crop: unconditional append. -/
def cropMut (ops : List Op) (box : ℚ × ℚ × ℚ × ℚ) : List Op :=
  ops ++ [Op.mk (strN "crop") none none (some box) none]

/-- Embedding of Photo.autocontrast: unconditional append, and note
that no cutoff parameter is stored. -/
def autocontrastMut (ops : List Op) : List Op :=
  ops ++ [Op.mk (strN "autocontrast") none none none none]

/-- One mutator call of the pipeline. -/
inductive Mut where
  | rotate (d : ℚ)
  | saturation (l : ℚ)
  | contrast (l : ℚ)
  | brightness (l : ℚ)
  | crop (b : ℚ × ℚ × ℚ × ℚ)
  | autocontrast

/-- Dispatch one mutator call on the operation list. -/
def applyMut (ops : List Op) : Mut → Except Str (List Op)
  | .rotate d => rotateMut ops d
  | .saturation l => .ok (saturationMut ops l)
  | .contrast l => .ok (contrastMut ops l)
  | .brightness l => .ok (brightnessMut ops l)
  | .crop b => .ok (cropMut ops b)
  | .autocontrast => .ok (autocontrastMut ops)

/-- Run a sequence of mutator calls from a given operation list. -/
def applySeqFrom (ops : List Op) : List Mut → Except Str (List Op)
  | [] => .ok ops
  | m :: ms =>
      match applyMut ops m with
      | .ok ops2 => applySeqFrom ops2 ms
      | .error e => .error e

/-- Run a sequence of mutator calls on an initially empty list. -/
def applySeq (ms : List Mut) : Except Str (List Op) := applySeqFrom [] ms

/-- An operation whose key is rotate. -/
abbrev isRotateOp (op : Op) : Prop := op.key = strN "rotate"

/-- No two adjacent entries of the list are both rotates. -/
def noAdjRotate (ops : List Op) : Prop :=
  List.Chain' (fun a b => ¬(isRotateOp a ∧ isRotateOp b)) ops

/-- The reachability invariant of the operation list: no adjacent
rotates, and every rotate entry carries its degrees. -/
def opsInv (ops : List Op) : Prop :=
  noAdjRotate ops ∧ ∀ op ∈ ops, isRotateOp op → op.degrees ≠ none

/-- Embedding of Photo._crop_after_rotate in exact arithmetic.  The
angle enters through its cosine and sine (math.cos and math.sin of the
radian angle, which are irrational in general, so the geometry is
analysed as a function of the cosine-sine pair); the code takes their
absolute values C and S.  A zero denominator S*S - C*C is the
division-by-zero branch of the formula for f. -/
def crop_exact (width height cosA sinA : ℚ) : Except Str (ℚ × ℚ × ℚ × ℚ) :=
  let C := |cosA|
  let S := |sinA|
  let W := width * C + height * S
  let H := width * S + height * C
  if S * S - C * C = 0 then .error (strN "ZeroDivisionError: float division by zero")
  else
    let f := C * S / (S * S - C * C)
    let a := f * (width * S - height * C)
    let b := f * (height * S - width * C)
    .ok (a, b, W - a, H - b)

/-- Embedding of Photo._crop_after_rotate: the exact crop box with each
coordinate truncated by int(), as handed to the PIL crop collaborator. -/
def _crop_after_rotate (width height cosA sinA : ℚ) : Except Str (ℤ × ℤ × ℤ × ℤ) :=
  (crop_exact width height cosA sinA).map
    fun r => (pyInt r.1, pyInt r.2.1, pyInt r.2.2.1, pyInt r.2.2.2)

/-- A symbolic image at the boundary of the pixel collaborator (PIL).
The base image carries its size; each transform constructor records the
requested primitive and its parameters.  -/
inductive Image where
  | base (width height : ℤ)
  | autocontrastI (img : Image) (cutoff : ℚ)
  | brightnessI (img : Image) (level : ℚ)
  | contrastI (img : Image) (level : ℚ)
  | colorI (img : Image) (level : ℚ)
  | cropI (img : Image) (x1 y1 x2 y2 : ℤ)
  | rotateI (img : Image) (degrees : ℚ)
deriving DecidableEq

/-- Size of a symbolic image.  The parameter trig maps degrees to the
(cosine, sine) pair of the radian angle, abstracting the math library;
the size of the expanded canvas after a rotate is modelled with
truncation of the exact W and H. -/
def Image.size (trig : ℚ → ℚ × ℚ) : Image → ℤ × ℤ
  | .base w h => (w, h)
  | .autocontrastI img _ => img.size trig
  | .brightnessI img _ => img.size trig
  | .contrastI img _ => img.size trig
  | .colorI img _ => img.size trig
  | .cropI _ x1 y1 x2 y2 => (x2 - x1, y2 - y1)
  | .rotateI img t =>
      let wh := img.size trig
      let c := |(trig t).1|
      let s := |(trig t).2|
      (pyInt ((wh.1 : ℚ) * c + (wh.2 : ℚ) * s), pyInt ((wh.1 : ℚ) * s + (wh.2 : ℚ) * c))

/-- Log events of _apply_op: the unconditional applying-op info line,
and the extra line for an unrecognized key. -/
inductive LogMsg where
  | applying (op : Op)
  | unknownOp (op : Op)
deriving DecidableEq

/-- Embedding of Photo._apply_op: dispatch on the operation key in
source order; autocontrast reads its cutoff with default one half;
brightness, contrast and saturation require their level; crop scales
its fractional box by the image size and truncates; rotate delegates
the expanded rotation and crops by the rotation geometry; any other
key logs the condition and returns the image unchanged. -/
def _apply_op (trig : ℚ → ℚ × ℚ) (img : Image) (op : Op) :
    Except Str (Image × List LogMsg) :=
  if op.key = strN "autocontrast" then
    .ok (.autocontrastI img (op.cutoff.getD (1 / 2)), [.applying op])
  else if op.key = strN "brightness" then
    match op.level with
    | some l => .ok (.brightnessI img l, [.applying op])
    | none => .error (strN "KeyError: level")
  else if op.key = strN "contrast" then
    match op.level with
    | some l => .ok (.contrastI img l, [.applying op])
    | none => .error (strN "KeyError: level")
  else if op.key = strN "saturation" then
    match op.level with
    | some l => .ok (.colorI img l, [.applying op])
    | none => .error (strN "KeyError: level")
  else if op.key = strN "crop" then
    match op.box with
    | some bx =>
        let wh := img.size trig
        .ok (.cropI img (pyInt ((wh.1 : ℚ) * bx.1)) (pyInt ((wh.2 : ℚ) * bx.2.1))
          (pyInt ((wh.1 : ℚ) * bx.2.2.1)) (pyInt ((wh.2 : ℚ) * bx.2.2.2)), [.applying op])
    | none => .error (strN "KeyError: box")
  else if op.key = strN "rotate" then
    match op.degrees with
    | some t =>
        let wh := img.size trig
        match _crop_after_rotate (wh.1 : ℚ) (wh.2 : ℚ) (trig t).1 (trig t).2 with
        | .ok bx => .ok (.cropI (.rotateI img t) bx.1 bx.2.1 bx.2.2.1 bx.2.2.2, [.applying op])
        | .error e => .error e
    | none => .error (strN "KeyError: degrees")
  else
    .ok (img, [.applying op, .unknownOp op])

/-- Left fold of _apply_op over the operation list, as performed by
Photo.get_image, accumulating the log events. -/
def applyOps (trig : ℚ → ℚ × ℚ) (img : Image) : List Op → Except Str (Image × List LogMsg)
  | [] => .ok (img, [])
  | op :: rest =>
      match _apply_op trig img op with
      | .ok res =>
          match applyOps trig res.1 rest with
          | .ok res2 => .ok (res2.1, res.2 ++ res2.2)
          | .error e => .error e
      | .error e => .error e

/-- Rendered image of an operation list, log events discarded. -/
def renderImage (trig : ℚ → ℚ × ℚ) (img : Image) (ops : List Op) : Except Str Image :=
  (applyOps trig img ops).map fun r => r.1

/-- The keys recognized by _apply_op. -/
def knownOpKeys : List Str :=
  [strN "autocontrast", strN "brightness", strN "contrast",
   strN "saturation", strN "crop", strN "rotate"]

/-- A fixed cosine-sine oracle used by concrete witnesses: every angle
maps to cosine one, sine zero. -/
def trigZero : ℚ → ℚ × ℚ := fun _ => (1, 0)

/-- Model of Python str(k / 2) for an int k, the half-step aperture
value: sign, integer part, a dot, then 0 or 5. -/
def formatHalf (k : ℤ) : Str :=
  let m := k.natAbs
  (if k < 0 then [45] else []) ++ natToChars (m / 2) ++ [46]
    ++ [if m % 2 = 0 then 48 else 53]

/-- Model of Python str(k / 10) for an int k, the tenth-step aperture
value: sign, integer part, a dot, then one digit. -/
def formatTenth (k : ℤ) : Str :=
  let m := k.natAbs
  (if k < 0 then [45] else []) ++ natToChars (m / 10) ++ [46] ++ [digitN (m % 10)]

/-- Python float(v) on a metadata value. -/
def pyFloatVal : Val → Except Str ℚ
  | .i k => .ok (k : ℚ)
  | .f q => .ok q
  | .s t => pyFloatOfStr t

/-- Python int(v) on a metadata value. -/
def pyIntVal : Val → Except Str ℤ
  | .i k => .ok k
  | .f q => .ok (pyInt q)
  | .s t => pyIntOfStr t

/-- Python set.add on the tag collection, modelled as an append-if-new
list so the insertion order stays deterministic. -/
def addTag (tags : List Str) (t : Str) : List Str :=
  if t ∈ tags then tags else tags ++ [t]

/-- Embedding of the local highest helper of Photo.read_exif_tags:
float(n) first (so a non-numeric string raises), values below 10 to the
digits power truncate to int, and otherwise the shift exponent uses
len(str(int(n))), the digit count of the truncated value. -/
def photosHighest (v : Val) (digits : Nat) : Except Str ℤ :=
  match pyFloatVal v with
  | .error e => .error e
  | .ok n =>
      if n < 10 ^ digits then .ok (pyInt n)
      else
        let shift : ℚ := (10 : ℚ) ^ (((intToChars (pyInt n)).length : ℤ) - (digits : ℤ))
        .ok (pyInt (shift * (pyRound (n / shift) : ℚ)))

/-- The camera word blacklist shared by both tag generators. -/
def camWordList : List Str :=
  [strN "canon", strN "nikon", strN "kodak", strN "digital",
   strN "camera", strN "super", strN "powershot"]

/-- The blacklist loop over a lowercased model string: for each plain
word then the end-anchored ed and is patterns, substitute the empty
string and strip. -/
def stripCamWords (t : Str) : Str :=
  let t1 := camWordList.foldl (fun acc w => stripN (replaceAllN w acc)) t
  let t2 := stripN (subEndPat (strN "ed") t1)
  stripN (subEndPat (strN "is") t2)

/-- Lexicographic order on code point lists, the model of Python
sorted() on strings. -/
def strLeB : Str → Str → Bool
  | [], _ => true
  | _ :: _, [] => false
  | a :: s, b :: t => if a < b then true else if b < a then false else strLeB s t

/-- Modelled from the spec: util.normalized_tag_set is not among the
provided sources.  Following section 4.1 (TagNormalizer), each tag is
trimmed and lowercased, empty strings are discarded, and the result is
a deduplicated set, rendered here as a sorted list the way the callers
consume it through sorted(). -/
def normalized_tag_set (tags : List Str) : List Str :=
  (((tags.map fun t => toLowerN (stripN t)).filter fun t => t ≠ []).dedup).mergeSort strLeB

/-- The FNumber tag of read_exif_tags: f/ followed by the value rounded
to the nearest half, with the trailing .0 of a whole value removed. -/
def fTag (x : ℚ) : Str :=
  replaceAllN (strN ".0") (strN "f/" ++ formatHalf (pyRound (2 * x)))

/-- The ShutterSpeed milliseconds of read_exif_tags: numeric values are
scaled by 1000 and truncated; strings of the form 1/x divide; any other
string raises ValueError. -/
def shutterMs (v : Val) : Except Str ℤ :=
  match v with
  | .i k => .ok (pyInt (1000 * (k : ℚ)))
  | .f q => .ok (pyInt (1000 * q))
  | .s t =>
      if (strN "1/").isPrefixOf t then
        match pyFloatOfStr (t.drop 2) with
        | .error e => .error e
        | .ok x =>
            if x = 0 then .error (strN "ZeroDivisionError: float division by zero")
            else .ok (pyInt (1000 / x))
      else .error (strN "cannot parse ShutterSpeed \"" ++ t ++ strN "\"")

/-- The FNumber block of read_exif_tags. -/
def fnumberStep (exif : List (Str × Val)) (tags : List Str) : Except Str (List Str) :=
  match dictGet exif (strN "FNumber") with
  | none => .ok tags
  | some v =>
      match pyFloatVal v with
      | .error e => .error e
      | .ok x => .ok (addTag tags (fTag x))

/-- The ISO block of read_exif_tags: int(value), rounded to one most
significant digit, or two when above 1000. -/
def isoStep (exif : List (Str × Val)) (tags : List Str) : Except Str (List Str) :=
  match dictGet exif (strN "ISO") with
  | none => .ok tags
  | some v =>
      match pyIntVal v with
      | .error e => .error e
      | .ok iso =>
          match photosHighest (.i iso) (if 1000 < iso then 2 else 1) with
          | .error e => .error e
          | .ok hi => .ok (addTag tags (strN "iso:" ++ intToChars hi))

/-- The ShutterSpeed block of read_exif_tags. -/
def shutterStep (exif : List (Str × Val)) (tags : List Str) : Except Str (List Str) :=
  match dictGet exif (strN "ShutterSpeed") with
  | none => .ok tags
  | some v =>
      match shutterMs v with
      | .error e => .error e
      | .ok n =>
          match photosHighest (.i n) 1 with
          | .error e => .error e
          | .ok hi => .ok (addTag tags (intToChars (max 1 hi) ++ strN "ms"))

/-- The FocalLength block of read_exif_tags: the value (a string, or a
TypeError from the slicing) loses its last two characters and goes
through highest. -/
def focalStep (exif : List (Str × Val)) (tags : List Str) : Except Str (List Str) :=
  match dictGet exif (strN "FocalLength") with
  | none => .ok tags
  | some v =>
      match v with
      | .s t =>
          match photosHighest (.s (t.take (t.length - 2))) 1 with
          | .error e => .error e
          | .ok hi => .ok (addTag tags (intToChars hi ++ strN "mm"))
      | _ => .error (strN "TypeError: value is not subscriptable")

/-- The Model block of read_exif_tags: lowercase (a non-string raises),
strip the camera words, and emit kit: when nonempty. -/
def modelStep (exif : List (Str × Val)) (tags : List Str) : Except Str (List Str) :=
  match dictGet exif (strN "Model") with
  | none => .ok tags
  | some v =>
      match v with
      | .s t =>
          let m := stripCamWords (toLowerN t)
          .ok (if m ≠ [] then addTag tags (strN "kit:" ++ m) else tags)
      | _ => .error (strN "AttributeError: lower")

/-- Embedding of Photo.read_exif_tags: an empty exif yields no tags;
otherwise the five facet blocks run in source order, any exception
aborting the remainder, and the collected tags are normalized at the
end. -/
def read_exif_tags (exif : List (Str × Val)) : Except Str (List Str) :=
  if exif.isEmpty then .ok []
  else
    fnumberStep exif [] >>= isoStep exif >>= shutterStep exif >>= focalStep exif
      >>= modelStep exif >>= fun tags => .ok (normalized_tag_set tags)

/-- Anchored match of the float pattern of illuminatus metadata (one or
more digits then an optional fraction): the string must start with a
digit. -/
def floatPatMatch (t : Str) : Bool := isDigitN (t.headD 0)

/-- Anchored match of the focal length pattern (digits, an optional
dot-digits group, optional whitespace, then mm); on success the first
group, the leading digit run, is returned. -/
def matchMM (t : Str) : Option Str :=
  let d1 := t.takeWhile isDigitN
  if d1 = [] then none
  else
    let r1 := t.dropWhile isDigitN
    let r2 :=
      match r1 with
      | 46 :: rest =>
          if rest.takeWhile isDigitN ≠ [] then rest.dropWhile isDigitN else r1
      | _ => r1
    if (strN "mm").isPrefixOf (r2.dropWhile isWSN) then some d1 else none

/-- Python truthiness of a metadata value. -/
def valTruthy : Val → Bool
  | .i k => if k = 0 then false else true
  | .f q => if q = 0 then false else true
  | .s t => if t = [] then false else true

/-- The camera-kit facet of gen_metadata_tags: CameraModelName else
Model else the empty string, lowercased (a non-string raises), run
through the blacklist loop; a nonempty remainder yields the kit tag,
lowercased once more by the format call. -/
def kitTagList (meta : List (Str × Val)) : Except Str (List Str) :=
  let mv := (dictGet meta (strN "CameraModelName")).getD
      ((dictGet meta (strN "Model")).getD (.s []))
  match mv with
  | .s t =>
      let model := stripCamWords (toLowerN t)
      .ok (if model ≠ [] then [toLowerN (strN "kit:" ++ model)] else [])
  | _ => .error (strN "AttributeError: lower")

/-- The aperture tag for an FNumber value x: f-number rounded to one
decimal, with a trailing .0 removed by str.replace. -/
def aperTagOf (x : ℚ) : Str :=
  replaceAllN (strN ".0") (strN "aperture:f/" ++ formatTenth (pyRound (10 * x)))

/-- The aperture facet of gen_metadata_tags: FNumber when numeric or
digit-prefixed text (then float() may still raise on trailing junk). -/
def aperTagList (meta : List (Str × Val)) : Except Str (List Str) :=
  let fv := (dictGet meta (strN "FNumber")).getD (.s [])
  match fv with
  | .i k => .ok [aperTagOf (k : ℚ)]
  | .f q => .ok [aperTagOf q]
  | .s t =>
      if floatPatMatch t then
        match pyFloatOfStr t with
        | .error e => .error e
        | .ok x => .ok [aperTagOf x]
      else .ok []

/-- The focus facet of gen_metadata_tags: FocalLengthIn35mmFormat else
FocalLength else the empty string; a string is reduced to the digit
group of the mm pattern (None when it does not match); a truthy value
goes through the most-significant-digit rounding. -/
def focusTagList (meta : List (Str × Val)) : Except Str (List Str) :=
  let mmv := (dictGet meta (strN "FocalLengthIn35mmFormat")).getD
      ((dictGet meta (strN "FocalLength")).getD (.s []))
  let mmOpt : Option Val :=
    match mmv with
    | .s t => (matchMM t).map .s
    | v => some v
  match mmOpt with
  | none => .ok []
  | some v =>
      if valTruthy v then
        match _round_to_most_significant_digits v 1 with
        | .error e => .error e
        | .ok hi => .ok [strN "focus:" ++ intToChars hi ++ strN "mm"]
      else .ok []

/-- Embedding of illuminatus metadata.gen_metadata_tags: no tags for an
empty mapping; otherwise the kit, aperture and focus facets in yield
order, an exception from any facet aborting the generator. -/
def gen_metadata_tags (meta : List (Str × Val)) : Except Str (List Str) :=
  if meta.isEmpty then .ok []
  else
    kitTagList meta >>= fun kit =>
    aperTagList meta >>= fun ap =>
    focusTagList meta >>= fun fo =>
    .ok (kit ++ ap ++ fo)

/-- Embedding of the tag normalization of the retag command (main,
lines 32 to 34): keep the tags whose strip is nonempty, strip and
lowercase each, then deduplicate as a set and sort. -/
def retag_user_tags (tags : List Str) : List Str :=
  (((tags.filter fun t => stripN t ≠ []).map fun t => toLowerN (stripN t)).dedup).mergeSort strLeB

/-- The normalization property of C9 for one tag: no uppercase code
point anywhere, and no whitespace at either end. -/
def tagNormalized (t : Str) : Prop :=
  (∀ c ∈ t, isUpperN c = false)
  ∧ (∀ c, t.head? = some c → isWSN c = false)
  ∧ (∀ c, t.getLast? = some c → isWSN c = false)

deriving instance DecidableEq for Except

/-
Theorems.
-/

set_option maxRecDepth 8000

/-- Evaluation helper for msdCore: supply the shift and the rounding
result as explicit numerals so that each piece is checked separately. -/
theorem msdCore_eval (n : Val) (nint : ℤ) (digits : Nat) (e : ℤ) (shift : ℚ)
    (r res : ℤ)
    (hge : ¬ nint < 10 ^ digits)
    (hlen : ((pyStrOfVal n).length : ℤ) - (digits : ℤ) = e)
    (hshift : (10 : ℚ) ^ e = shift)
    (hr : pyRound ((nint : ℚ) / shift) = r)
    (hres : pyInt (shift * (r : ℚ)) = res) :
    msdCore n nint digits = res := by
  simp only [msdCore]
  rw [if_neg hge, hlen, hshift, hr, hres]

/-- C2: evaluation of the most-significant-digit rounding.  The three
integer examples from the spec hold, but a numeric-prefixed string such
as "23mm" returns 0 instead of 20, because the shift exponent is
computed from len(str(n)) of the raw argument rather than from the
digit count of its integer value. -/
theorem highest_rounding_eval :
    _round_to_most_significant_digits (.i 23) 1 = .ok 20
    ∧ _round_to_most_significant_digits (.i 847) 1 = .ok 800
    ∧ _round_to_most_significant_digits (.i 7) 1 = .ok 7
    ∧ _round_to_most_significant_digits (.s (strN "23mm")) 1 = .ok 0 := by
  refine ⟨?_, ?_, ?_, ?_⟩
  · simp only [_round_to_most_significant_digits]
    rw [msdCore_eval (.i 23) 23 1 1 10 2 20 (by norm_num) (by decide) (by norm_num)
      (by norm_num [pyRound]) (by norm_num [pyInt])]
  · simp only [_round_to_most_significant_digits]
    rw [msdCore_eval (.i 847) 847 1 2 100 8 800 (by norm_num) (by decide) (by norm_num)
      (by norm_num [pyRound]) (by norm_num [pyInt])]
  · simp only [_round_to_most_significant_digits]
    norm_num [msdCore]
  · have h1 : strN "23mm" = [50, 51, 109, 109] := by decide
    rw [h1]
    simp only [_round_to_most_significant_digits]
    have hds : List.takeWhile isDigitN [50, 51, 109, 109] = [50, 51] := by decide
    rw [hds]
    have hdv : ((digitsVal [50, 51] : Nat) : ℤ) = 23 := by decide
    simp only [hdv, reduceIte]
    rw [msdCore_eval (.s [50, 51, 109, 109]) 23 1 3 1000 0 0 (by norm_num) (by decide)
      (by norm_num) (by norm_num [pyRound]) (by norm_num [pyInt])]
    simp

/-- C3: the datetime tagger emits no tags for an absent timestamp and
exactly five tags for a present one; the hour bucket is the hour of the
timestamp shifted forward by 11 minutes, so every time from 10:49:00
through 11:48:59 produces the tag h:11:11am while 10:48 produces the
hour 10 tag. -/
theorem datetime_tagger_tags (a : Arrow) :
    gen_datetime_tags none = []
    ∧ (gen_datetime_tags (some a)).length = 5
    ∧ ((a.hour = 10 ∧ 49 ≤ a.minute ∧ a.minute < 60) ∨ (a.hour = 11 ∧ a.minute ≤ 48) →
        (gen_datetime_tags (some a)).getD 4 [] = strN "h:11:11am")
    ∧ (a.hour = 10 ∧ a.minute = 48 →
        (gen_datetime_tags (some a)).getD 4 [] = strN "h:10:10am") := by
  refine ⟨rfl, rfl, ?_, ?_⟩
  · intro h
    have hsh : shiftedHourOfDay a = 11 := by
      rcases h with ⟨h10, h49, h60⟩ | ⟨h11, h48⟩ <;> simp only [shiftedHourOfDay, *] <;> omega
    simp only [gen_datetime_tags, List.getD, List.get?, hsh]
    decide
  · rintro ⟨h10, h48⟩
    have hsh : shiftedHourOfDay a = 10 := by
      simp only [shiftedHourOfDay, h10, h48]
    simp only [gen_datetime_tags, List.getD, List.get?, hsh]
    decide

/-- Witness for C3: the timestamp 2009-01-22 10:49:00 yields five tags
and its hour-bucket tag is h:11:11am. -/
theorem datetime_tagger_tags_witness :
    (gen_datetime_tags (some ⟨2009, 1, 22, 10, 49, 0⟩)).length = 5
    ∧ (gen_datetime_tags (some ⟨2009, 1, 22, 10, 49, 0⟩)).getD 4 [] = strN "h:11:11am" :=
  ⟨(datetime_tagger_tags ⟨2009, 1, 22, 10, 49, 0⟩).2.1,
   (datetime_tagger_tags ⟨2009, 1, 22, 10, 49, 0⟩).2.2.1
     (Or.inl ⟨rfl, by norm_num, by norm_num⟩)⟩

theorem mut_keys_not_rotate :
    ¬(strN "saturation" = strN "rotate") ∧ ¬(strN "contrast" = strN "rotate")
    ∧ ¬(strN "brightness" = strN "rotate") ∧ ¬(strN "crop" = strN "rotate")
    ∧ ¬(strN "autocontrast" = strN "rotate") := by decide

theorem opsInv_append (ops : List Op) (op : Op)
    (hsafe : ∀ x, ops.getLast? = some x → ¬(isRotateOp x ∧ isRotateOp op))
    (hdeg : isRotateOp op → op.degrees ≠ none) (h : opsInv ops) :
    opsInv (ops ++ [op]) := by
  obtain ⟨hc, hm⟩ := h
  constructor
  · rw [noAdjRotate, List.chain'_append]
    refine ⟨hc, List.chain'_singleton op, ?_⟩
    intro x hx y hy
    simp only [List.head?_cons, Option.mem_def, Option.some.injEq] at hy
    subst hy
    exact hsafe x (Option.mem_def.mp hx)
  · intro q hq
    rcases List.mem_append.mp hq with hql | hqr
    · exact hm q hql
    · simp only [List.mem_singleton] at hqr
      subst hqr
      exact hdeg

theorem opsInv_rotate (ops : List Op) (d : ℚ) (res : List Op)
    (h : opsInv ops) (hr : rotateMut ops d = .ok res) : opsInv res := by
  rw [rotateMut] at hr
  cases hl : ops.getLast? with
  | none =>
      rw [hl] at hr
      cases hr
      refine opsInv_append ops _ ?_ (fun _ => by simp [opRotate]) h
      intro x hx
      rw [hl] at hx
      cases hx
  | some last =>
      rw [hl] at hr
      dsimp only at hr
      by_cases hk : last.key = strN "rotate"
      · rw [if_pos hk] at hr
        cases hd : last.degrees with
        | none =>
            rw [hd] at hr
            cases hr
        | some d0 =>
            rw [hd] at hr
            cases hr
            have hne : ops ≠ [] := by
              intro he
              rw [he] at hl
              cases hl
            have hsplit : ops.dropLast ++ [ops.getLast hne] = ops :=
              List.dropLast_append_getLast hne
            have hlast : ops.getLast hne = last := by
              have h2 := List.getLast?_eq_getLast ops hne
              rw [hl] at h2
              exact (Option.some.injEq _ _).mp h2.symm
            obtain ⟨hc, hm⟩ := h
            rw [noAdjRotate, ← hsplit, hlast, List.chain'_append] at hc
            obtain ⟨hc1, _, hrel⟩ := hc
            constructor
            · rw [noAdjRotate, List.chain'_append]
              refine ⟨hc1, List.chain'_singleton _, ?_⟩
              intro x hx y hy
              simp only [List.head?_cons, Option.mem_def, Option.some.injEq] at hy
              subst hy
              intro hxy
              exact hrel x hx last (by simp) ⟨hxy.1, hk⟩
            · intro q hq
              rcases List.mem_append.mp hq with hql | hqr
              · exact hm q (List.mem_of_mem_dropLast hql)
              · simp only [List.mem_singleton] at hqr
                subst hqr
                simp [opRotate]
      · rw [if_neg hk] at hr
        cases hr
        refine opsInv_append ops _ ?_ (fun _ => by simp [opRotate]) h
        intro x hx hxy
        rw [hl] at hx
        cases hx
        exact hk hxy.1

theorem opsInv_applyMut (ops : List Op) (m : Mut) (res : List Op)
    (h : opsInv ops) (hr : applyMut ops m = .ok res) : opsInv res := by
  cases m with
  | rotate d => exact opsInv_rotate ops d res h hr
  | saturation l =>
      cases hr
      exact opsInv_append ops _ (fun x hx hxy => absurd hxy.2 mut_keys_not_rotate.1)
        (fun hk => absurd hk mut_keys_not_rotate.1) h
  | contrast l =>
      cases hr
      exact opsInv_append ops _ (fun x hx hxy => absurd hxy.2 mut_keys_not_rotate.2.1)
        (fun hk => absurd hk mut_keys_not_rotate.2.1) h
  | brightness l =>
      cases hr
      exact opsInv_append ops _ (fun x hx hxy => absurd hxy.2 mut_keys_not_rotate.2.2.1)
        (fun hk => absurd hk mut_keys_not_rotate.2.2.1) h
  | crop b =>
      cases hr
      exact opsInv_append ops _ (fun x hx hxy => absurd hxy.2 mut_keys_not_rotate.2.2.2.1)
        (fun hk => absurd hk mut_keys_not_rotate.2.2.2.1) h
  | autocontrast =>
      cases hr
      exact opsInv_append ops _ (fun x hx hxy => absurd hxy.2 mut_keys_not_rotate.2.2.2.2)
        (fun hk => absurd hk mut_keys_not_rotate.2.2.2.2) h

theorem opsInv_applySeqFrom (ms : List Mut) (ops : List Op) (res : List Op)
    (h : opsInv ops) (hr : applySeqFrom ops ms = .ok res) : opsInv res := by
  induction ms generalizing ops with
  | nil =>
      rw [applySeqFrom] at hr
      cases hr
      exact h
  | cons m ms ih =>
      rw [applySeqFrom] at hr
      cases ha : applyMut ops m with
      | ok ops2 =>
          rw [ha] at hr
          exact ih ops2 (opsInv_applyMut ops m ops2 h ha) hr
      | error e =>
          rw [ha] at hr
          cases hr

theorem metaLoop_eq_findSome (meta : List (Str × Str)) (ks : List Str) :
    metaLoop meta ks = ks.findSome? fun k => (dictGet meta k).bind parseTS := by
  induction ks with
  | nil => rfl
  | cons k ks ih =>
      rw [metaLoop, List.findSome?]
      cases hd : dictGet meta k with
      | none => simpa using ih
      | some v =>
          cases hp : parseTS v with
          | none => simpa [hp] using ih
          | some a => simp [hp]

/-- C1: the timestamp resolver agrees everywhere with the spec
description; an unparseable DateTimeOriginal with a parseable
CreateDate yields the CreateDate timestamp; when no key yields a valid
timestamp the result is the file modification time, and the fixed
sentinel 1000-01-01T00:00:00 when the file does not exist. -/
theorem timestamp_resolver_resolve (meta : List (Str × Str)) (mtime : Option Arrow) :
    get_timestamp meta mtime = resolveSpec meta mtime
    ∧ (∀ v w a, dictGet meta (strN "DateTimeOriginal") = some v → parseTS v = none →
        dictGet meta (strN "CreateDate") = some w → parseTS w = some a →
        get_timestamp meta mtime = a)
    ∧ ((∀ k, k ∈ timestampKeys → ∀ v, dictGet meta k = some v → parseTS v = none) →
        (∀ t, mtime = some t → get_timestamp meta mtime = t)
        ∧ (mtime = none → get_timestamp meta mtime = arrowSentinel)) := by
  refine ⟨?_, ?_, ?_⟩
  · rw [get_timestamp.eq_def, resolveSpec, metaLoop_eq_findSome]
    cases hf : timestampKeys.findSome? fun k => (dictGet meta k).bind parseTS with
    | none => cases mtime <;> simp [Option.orElse, Option.getD]
    | some a => simp [Option.orElse, Option.getD]
  · intro v w a h1 hp1 h2 hp2
    rw [get_timestamp.eq_def, metaLoop_eq_findSome]
    simp [timestampKeys, List.findSome?, h1, hp1, h2, hp2]
  · intro hall
    have hnone : (timestampKeys.findSome? fun k => (dictGet meta k).bind parseTS) = none := by
      have step : ∀ k, k ∈ timestampKeys → (dictGet meta k).bind parseTS = none := by
        intro k hk
        cases hd : dictGet meta k with
        | none => rfl
        | some v => simp [hall k hk v hd]
      rw [timestampKeys] at step ⊢
      simp only [List.findSome?]
      rw [step _ (by simp), step _ (by simp), step _ (by simp), step _ (by simp)]
    constructor
    · intro t ht
      rw [get_timestamp.eq_def, metaLoop_eq_findSome, hnone, ht]
    · intro ht
      rw [get_timestamp.eq_def, metaLoop_eq_findSome, hnone, ht]

/-- Witness for C1: a metadata mapping whose DateTimeOriginal does not
parse but whose CreateDate does resolves to the CreateDate timestamp. -/
theorem timestamp_resolver_resolve_witness :
    get_timestamp
      [(strN "DateTimeOriginal", strN "not a timestamp"),
       (strN "CreateDate", strN "2009:01:22 10:49:00")] none
      = ⟨2009, 1, 22, 10, 49, 0⟩ :=
  (timestamp_resolver_resolve
      [(strN "DateTimeOriginal", strN "not a timestamp"),
       (strN "CreateDate", strN "2009:01:22 10:49:00")] none).2.1
    (strN "not a timestamp") (strN "2009:01:22 10:49:00") ⟨2009, 1, 22, 10, 49, 0⟩
    (by decide) (by decide) (by decide) (by decide)

/-- C4: every mutator sequence applied from an empty operation list
yields a list with no two adjacent rotate operations, and rotate(10)
immediately followed by rotate(20) yields the single merged operation
with key rotate and degrees 30. -/
theorem operation_list_no_adjacent_rotates :
    (∀ (ms : List Mut) (ops : List Op), applySeq ms = .ok ops → noAdjRotate ops)
    ∧ applySeq [.rotate 10, .rotate 20] = .ok [opRotate 30] := by
  constructor
  · intro ms ops h
    refine (opsInv_applySeqFrom ms [] ops ⟨?_, ?_⟩ h).1
    · simp [noAdjRotate]
    · simp
  · have h1 : pyMod 10 360 = 10 := by
      rw [pyMod]
      norm_num
    have h2 : pyMod (20 + 10) 360 = 30 := by
      rw [pyMod]
      norm_num
    simp [applySeq, applySeqFrom, applyMut, rotateMut, opRotate, h1, h2]

/-- Witness for C4: the merged list of the concrete two-rotate sequence
satisfies the no-adjacent-rotates invariant. -/
theorem operation_list_no_adjacent_rotates_witness :
    noAdjRotate [opRotate 30] :=
  operation_list_no_adjacent_rotates.1 [.rotate 10, .rotate 20] [opRotate 30]
    operation_list_no_adjacent_rotates.2

/-- C5: evaluation of the rotation crop geometry at a degenerate angle.
The implementation has no special case: whenever the absolute sine and
cosine coincide (every odd multiple of 45 degrees), the denominator
S*S - C*C is zero and the division-by-zero branch is reached, here
shown at width = height = 100 with the coinciding pair one half, and in
general for every coinciding pair. -/
theorem degenerate_rotation_eval :
    _crop_after_rotate 100 100 (1 / 2) (1 / 2)
      = .error (strN "ZeroDivisionError: float division by zero")
    ∧ ∀ (w h c : ℚ), crop_exact w h c c
      = .error (strN "ZeroDivisionError: float division by zero") := by
  constructor
  · simp [_crop_after_rotate, crop_exact, sub_self, Except.map]
  · intro w h c
    simp [crop_exact, sub_self]

/-- C6 counterexample: for a non-square image (width 200, height 100)
at the angle with cosine 4/5 and sine 3/5, the crop offset a is
-480/7, which is negative, violating the claimed bound 0 <= a. -/
theorem rotation_geometry_bounds_counterexample :
    crop_exact 200 100 (4 / 5) (3 / 5)
      = .ok (-480 / 7, 1200 / 7, 2020 / 7, 200 / 7)
    ∧ ¬(0 ≤ (-480 / 7 : ℚ)) := by
  constructor
  · simp only [crop_exact]
    rw [abs_of_nonneg (by norm_num : (0 : ℚ) ≤ 4 / 5),
        abs_of_nonneg (by norm_num : (0 : ℚ) ≤ 3 / 5)]
    norm_num
  · norm_num

/-- C6 amended: for square images (width = height = w > 0) and any
angle whose sine-cosine pair lies on the unit circle away from the
degenerate set (s * s differs from c * c), the crop offsets a and b lie
within the expanded canvas: 0 <= a <= W and 0 <= b <= H. -/
theorem rotation_geometry_bounds_square (w c s a b r t : ℚ)
    (hw : 0 < w) (hunit : c * c + s * s = 1) (hne : s * s ≠ c * c)
    (hok : crop_exact w w c s = .ok (a, b, r, t)) :
    (0 ≤ a ∧ a ≤ w * |c| + w * |s|) ∧ (0 ≤ b ∧ b ≤ w * |s| + w * |c|) := by
  have hC : (0 : ℚ) ≤ |c| := abs_nonneg c
  have hS : (0 : ℚ) ≤ |s| := abs_nonneg s
  have hCC : |c| * |c| = c * c := abs_mul_abs_self c
  have hSS : |s| * |s| = s * s := abs_mul_abs_self s
  have hne2 : |s| * |s| - |c| * |c| ≠ 0 := by
    rw [hCC, hSS]
    intro h0
    exact hne (by linarith)
  have hsum : 0 < |s| + |c| := by
    rcases lt_or_eq_of_le hS with hs0 | hs0
    · linarith
    · rcases lt_or_eq_of_le hC with hc0 | hc0
      · linarith
      · exfalso
        have : c * c + s * s = 0 := by
          rw [← hCC, ← hSS, ← hs0, ← hc0]
          ring
        rw [hunit] at this
        norm_num at this
  simp only [crop_exact] at hok
  rw [if_neg hne2] at hok
  simp only [Except.ok.injEq, Prod.mk.injEq] at hok
  obtain ⟨ha, hb, -, -⟩ := hok
  have hd : |s| - |c| ≠ 0 := by
    intro h0
    apply hne2
    have : |s| * |s| - |c| * |c| = (|s| - |c|) * (|s| + |c|) := by ring
    rw [this, h0, zero_mul]
  have key : |c| * |s| / (|s| * |s| - |c| * |c|) * (w * |s| - w * |c|)
      = w * (|c| * |s|) / (|s| + |c|) := by
    rw [show |s| * |s| - |c| * |c| = (|s| - |c|) * (|s| + |c|) from by ring]
    field_simp
    ring
  have ha2 : a = w * (|c| * |s|) / (|s| + |c|) := by rw [← ha, key]
  have hb2 : b = w * (|c| * |s|) / (|s| + |c|) := by rw [← hb, key]
  have hlow : 0 ≤ w * (|c| * |s|) / (|s| + |c|) :=
    div_nonneg (mul_nonneg hw.le (mul_nonneg hC hS)) hsum.le
  have hhigh : w * (|c| * |s|) / (|s| + |c|) ≤ w * |c| + w * |s| := by
    rw [div_le_iff₀ hsum]
    nlinarith [mul_nonneg (mul_nonneg hw.le hC) hS, hCC, hSS, hunit,
      mul_pos hw hsum, mul_nonneg hC hS]
  constructor
  · exact ⟨ha2 ▸ hlow, ha2 ▸ (by linarith : w * (|c| * |s|) / (|s| + |c|) ≤ w * |c| + w * |s|)⟩
  · exact ⟨hb2 ▸ hlow, hb2 ▸ (by linarith : w * (|c| * |s|) / (|s| + |c|) ≤ w * |s| + w * |c|)⟩

/-- Witness for C6 amended: the square image of side 5 at the angle
with cosine 4/5 and sine 3/5 has both offsets 12/7, inside the 7 by 7
canvas. -/
theorem rotation_geometry_bounds_square_witness :
    (0 ≤ (12 / 7 : ℚ) ∧ (12 / 7 : ℚ) ≤ 5 * |(4 / 5 : ℚ)| + 5 * |(3 / 5 : ℚ)|)
    ∧ (0 ≤ (12 / 7 : ℚ) ∧ (12 / 7 : ℚ) ≤ 5 * |(3 / 5 : ℚ)| + 5 * |(4 / 5 : ℚ)|) :=
  rotation_geometry_bounds_square 5 (4 / 5) (3 / 5) (12 / 7) (12 / 7) (37 / 7) (37 / 7)
    (by norm_num) (by norm_num) (by norm_num)
    (by
      simp only [crop_exact]
      rw [abs_of_nonneg (by norm_num : (0 : ℚ) ≤ 4 / 5),
          abs_of_nonneg (by norm_num : (0 : ℚ) ≤ 3 / 5)]
      norm_num)

theorem apply_op_unknown (trig : ℚ → ℚ × ℚ) (op : Op)
    (h : op.key ∉ knownOpKeys) :
    ∀ img : Image, _apply_op trig img op = .ok (img, [.applying op, .unknownOp op]) := by
  intro img
  simp only [knownOpKeys, List.mem_cons, List.not_mem_nil, or_false, not_or] at h
  obtain ⟨h1, h2, h3, h4, h5, h6⟩ := h
  rw [_apply_op, if_neg h1, if_neg h2, if_neg h3, if_neg h4, if_neg h5, if_neg h6]

theorem applyOps_unknown_cancel (trig : ℚ → ℚ × ℚ) (op : Op)
    (h : op.key ∉ knownOpKeys) :
    ∀ (pre post : List Op) (img : Image),
      (applyOps trig img (pre ++ op :: post)).map Prod.fst
        = (applyOps trig img (pre ++ post)).map Prod.fst := by
  intro pre post
  induction pre with
  | nil =>
      intro img
      simp only [List.nil_append]
      rw [applyOps, apply_op_unknown trig op h img]
      dsimp only
      cases hi : applyOps trig img post with
      | ok res2 => simp [Except.map]
      | error e => simp [Except.map]
  | cons p pre ih =>
      intro img
      simp only [List.cons_append]
      rw [applyOps, applyOps]
      cases he : _apply_op trig img p with
      | error e => simp [Except.map]
      | ok res =>
          dsimp only
          have hih := ih res.1
          cases hi1 : applyOps trig res.1 (pre ++ op :: post) with
          | ok x =>
              cases hi2 : applyOps trig res.1 (pre ++ post) with
              | ok y =>
                  rw [hi1, hi2] at hih
                  simp only [Except.map] at hih ⊢
                  simp only [Except.ok.injEq] at hih
                  simp [hih]
              | error e =>
                  rw [hi1, hi2] at hih
                  simp [Except.map] at hih
          | error e =>
              cases hi2 : applyOps trig res.1 (pre ++ post) with
              | ok y =>
                  rw [hi1, hi2] at hih
                  simp [Except.map] at hih
              | error e2 =>
                  rw [hi1, hi2] at hih
                  simp only [Except.map] at hih ⊢
                  simp only [Except.error.injEq] at hih
                  simp [hih]

/-- C7: an operation whose key is not one of the six recognized ones is
applied without raising, leaves the image unchanged at that step while
logging the condition, and the rest of the render proceeds exactly as
if the operation were absent. -/
theorem unknown_operation_render (trig : ℚ → ℚ × ℚ) (img : Image) (op : Op)
    (h : op.key ∉ knownOpKeys) :
    _apply_op trig img op = .ok (img, [.applying op, .unknownOp op])
    ∧ ∀ (pre post : List Op),
        renderImage trig img (pre ++ op :: post) = renderImage trig img (pre ++ post) := by
  refine ⟨apply_op_unknown trig op h img, ?_⟩
  intro pre post
  rw [renderImage, renderImage]
  exact applyOps_unknown_cancel trig op h pre post img

/-- Witness for C7: the key unknown-op is applied as the identity with
the condition logged, and a one-element render equals the empty
render. -/
theorem unknown_operation_render_witness :
    _apply_op trigZero (Image.base 4 3) (Op.mk (strN "unknown-op") none none none none)
      = .ok (Image.base 4 3,
          [.applying (Op.mk (strN "unknown-op") none none none none),
           .unknownOp (Op.mk (strN "unknown-op") none none none none)])
    ∧ renderImage trigZero (Image.base 4 3) [Op.mk (strN "unknown-op") none none none none]
      = renderImage trigZero (Image.base 4 3) [] :=
  ⟨(unknown_operation_render trigZero (Image.base 4 3)
      (Op.mk (strN "unknown-op") none none none none) (by decide)).1,
   (unknown_operation_render trigZero (Image.base 4 3)
      (Op.mk (strN "unknown-op") none none none none) (by decide)).2 [] []⟩

/-- C10: the autocontrast mutator appends an operation that carries no
cutoff, and applying an autocontrast operation without a cutoff
parameter requests the autocontrast primitive with the default cutoff
one half. -/
theorem autocontrast_default_cutoff (trig : ℚ → ℚ × ℚ) (ops : List Op) (img : Image)
    (op : Op) (hk : op.key = strN "autocontrast") (hc : op.cutoff = none) :
    autocontrastMut ops = ops ++ [Op.mk (strN "autocontrast") none none none none]
    ∧ _apply_op trig img op = .ok (.autocontrastI img (1 / 2), [.applying op]) := by
  refine ⟨rfl, ?_⟩
  rw [_apply_op, if_pos hk, hc]
  rfl

theorem lowerN_not_upper (c : Nat) : isUpperN (lowerN c) = false := by
  rw [lowerN]
  split
  · simp only [isUpperN, Bool.and_eq_false_iff, decide_eq_false_iff_not]
    omega
  · simp only [isUpperN, Bool.and_eq_false_iff, decide_eq_false_iff_not]
    omega

theorem lowerN_not_ws (c : Nat) (h : isWSN c = false) : isWSN (lowerN c) = false := by
  rw [lowerN]
  split
  · simp only [isWSN, Bool.or_eq_false_iff, decide_eq_false_iff_not]
    omega
  · exact h

theorem toLowerN_not_upper (t : Str) : ∀ c ∈ toLowerN t, isUpperN c = false := by
  intro c hc
  obtain ⟨d, -, rfl⟩ := List.mem_map.mp hc
  exact lowerN_not_upper d

theorem head?_dropWhile_falsifies (p : Nat → Bool) (l : List Nat) :
    ∀ c, (l.dropWhile p).head? = some c → p c = false := by
  induction l with
  | nil => intro c hc; cases hc
  | cons a t ih =>
      intro c hc
      rw [List.dropWhile_cons] at hc
      by_cases hp : p a
      · rw [if_pos hp] at hc
        exact ih c hc
      · rw [if_neg hp] at hc
        cases hc
        exact Bool.not_eq_true _ ▸ (by simpa using hp)

theorem stripN_subset (s : Str) : stripN s ⊆ s := by
  intro c hc
  rw [stripN, List.mem_reverse] at hc
  have h1 := (List.dropWhile_suffix isWSN).subset hc
  rw [List.mem_reverse] at h1
  exact (List.dropWhile_suffix isWSN).subset h1

theorem stripN_getLast_not_ws (s : Str) :
    ∀ c, (stripN s).getLast? = some c → isWSN c = false := by
  intro c hc
  rw [stripN, List.getLast?_reverse] at hc
  exact head?_dropWhile_falsifies isWSN _ c hc

theorem stripN_head_not_ws (s : Str) :
    ∀ c, (stripN s).head? = some c → isWSN c = false := by
  intro c hc
  rw [stripN, List.head?_reverse] at hc
  set R := (s.dropWhile isWSN).reverse with hR
  have hne : R.dropWhile isWSN ≠ [] := by
    intro he
    rw [he] at hc
    cases hc
  obtain ⟨pre, hpre⟩ := List.dropWhile_suffix (l := R) isWSN
  have hlast : (R.dropWhile isWSN).getLast? = R.getLast? := by
    conv_rhs => rw [← hpre]
    exact (List.getLast?_append_of_ne_nil pre hne).symm
  rw [hlast, hR, List.getLast?_reverse] at hc
  exact head?_dropWhile_falsifies isWSN _ c hc

theorem replaceGo_subset (pat : Str) (fuel : Nat) (s : Str) :
    replaceGo pat fuel s ⊆ s := by
  induction fuel generalizing s with
  | zero => intro c hc; exact hc
  | succ fuel ih =>
      intro c hc
      cases s with
      | nil => cases hc
      | cons a t =>
          rw [replaceGo] at hc
          split at hc
          · exact (List.drop_subset _ _) (ih _ hc)
          · rcases List.mem_cons.mp hc with rfl | hc2
            · exact List.mem_cons_self _ t
            · exact List.mem_cons_of_mem a (ih t hc2)

theorem replaceAllN_subset (pat s : Str) : replaceAllN pat s ⊆ s :=
  replaceGo_subset pat s.length s

theorem replaceGo_cons_ne (p c : Nat) (ps t : Str) (fuel : Nat) (hne : (p == c) = false) :
    replaceGo (p :: ps) (fuel + 1) (c :: t) = c :: replaceGo (p :: ps) fuel t := by
  rw [replaceGo]
  rw [if_neg]
  intro hpre
  rw [show (p :: ps).isPrefixOf (c :: t) = (p == c && ps.isPrefixOf t) from rfl,
    hne, Bool.false_and] at hpre
  cases hpre

theorem tagNormalized_of_safe (t : Str)
    (h : ∀ c ∈ t, isUpperN c = false ∧ isWSN c = false) : tagNormalized t :=
  ⟨fun c hc => (h c hc).1,
   fun c hc => (h c (List.mem_of_mem_head? hc)).2,
   fun c hc => (h c (List.mem_of_mem_getLast? hc)).2⟩

theorem digitN_safe (d : Nat) : isUpperN (digitN d) = false ∧ isWSN (digitN d) = false := by
  have hd : d % 10 < 10 := Nat.mod_lt _ (by norm_num)
  rw [digitN]
  constructor
  · simp only [isUpperN, Bool.and_eq_false_iff, decide_eq_false_iff_not]
    omega
  · simp only [isWSN, Bool.or_eq_false_iff, decide_eq_false_iff_not]
    omega

theorem natToCharsAux_safe (fuel : Nat) :
    ∀ (n : Nat), ∀ c ∈ natToCharsAux fuel n, isUpperN c = false ∧ isWSN c = false := by
  induction fuel with
  | zero => intro n c hc; cases hc
  | succ fuel ih =>
      intro n c hc
      rw [natToCharsAux] at hc
      split at hc
      · rcases List.mem_singleton.mp hc with rfl
        exact digitN_safe n
      · rcases List.mem_append.mp hc with h1 | h2
        · exact ih _ c h1
        · rcases List.mem_singleton.mp h2 with rfl
          exact digitN_safe (n % 10)

theorem natToChars_safe (n : Nat) :
    ∀ c ∈ natToChars n, isUpperN c = false ∧ isWSN c = false :=
  natToCharsAux_safe (n + 1) n

theorem intToChars_safe (k : ℤ) :
    ∀ c ∈ intToChars k, isUpperN c = false ∧ isWSN c = false := by
  intro c hc
  rw [intToChars] at hc
  split at hc
  · rcases List.mem_cons.mp hc with rfl | h2
    · exact ⟨by decide, by decide⟩
    · exact natToChars_safe _ c h2
  · exact natToChars_safe _ c hc

theorem padZeroN_safe (w n : Nat) :
    ∀ c ∈ padZeroN w n, isUpperN c = false ∧ isWSN c = false := by
  intro c hc
  rw [padZeroN] at hc
  rcases List.mem_append.mp hc with h1 | h2
  · rcases List.eq_of_mem_replicate h1 with rfl
    exact ⟨by decide, by decide⟩
  · exact natToChars_safe n c h2

theorem formatTenth_safe (k : ℤ) :
    ∀ c ∈ formatTenth k, isUpperN c = false ∧ isWSN c = false := by
  intro c hc
  simp only [formatTenth, List.append_assoc] at hc
  rcases List.mem_append.mp hc with h1 | h2
  · split at h1
    · rcases List.mem_singleton.mp h1 with rfl
      exact ⟨by decide, by decide⟩
    · cases h1
  · rcases List.mem_append.mp h2 with h3 | h4
    · exact natToChars_safe _ c h3
    · rcases List.mem_append.mp h4 with h5 | h6
      · rcases List.mem_singleton.mp h5 with rfl
        exact ⟨by decide, by decide⟩
      · rcases List.mem_singleton.mp h6 with rfl
        exact digitN_safe _

theorem getD_mem_or (l : List Str) (i : Nat) (d : Str) :
    l.getD i d ∈ l ∨ l.getD i d = d := by
  induction l generalizing i with
  | nil => right; rfl
  | cons a t ih =>
      cases i with
      | zero => left; exact List.mem_cons_self a t
      | succ j =>
          rcases ih j with h | h
          · left; exact List.mem_cons_of_mem a h
          · right; exact h

theorem ne_of_headQ_ne (x y : Str) (cx cy : Nat) (hx : x.head? = some cx)
    (hy : y.head? = some cy) (hne : cx ≠ cy) : x ≠ y := by
  intro he
  subst he
  rw [hx] at hy
  exact hne (Option.some.inj hy)

theorem stripCamWords_getLast (x : Str) :
    ∀ c, (stripCamWords x).getLast? = some c → isWSN c = false := by
  simp only [stripCamWords]
  exact stripN_getLast_not_ws _

theorem kit_tag_props (m : Str) (hm : m ≠ [])
    (hlast : ∀ c, m.getLast? = some c → isWSN c = false) :
    (toLowerN (strN "kit:" ++ m)).head? = some 107
    ∧ tagNormalized (toLowerN (strN "kit:" ++ m))
    ∧ toLowerN (strN "kit:" ++ m) ≠ [] := by
  have hk : strN "kit:" = [107, 105, 116, 58] := by decide
  rw [hk]
  have hhead : (toLowerN ([107, 105, 116, 58] ++ m)).head? = some 107 := rfl
  refine ⟨hhead, ⟨toLowerN_not_upper _, ?_, ?_⟩, ?_⟩
  · intro c hc
    rw [hhead] at hc
    cases hc
    decide
  · intro c hc
    rw [toLowerN, List.getLast?_map] at hc
    rw [List.getLast?_append_of_ne_nil _ hm] at hc
    obtain ⟨d, hd, rfl⟩ := Option.map_eq_some'.mp hc
    exact lowerN_not_ws d (hlast d hd)
  · intro he
    rw [toLowerN, List.map_eq_nil_iff] at he
    cases he

theorem aper_tag_chars (k : ℤ) :
    ∀ c ∈ strN "aperture:f/" ++ formatTenth k, isUpperN c = false ∧ isWSN c = false := by
  intro c hc
  rcases List.mem_append.mp hc with h1 | h2
  · clear hc
    revert c h1
    decide
  · exact formatTenth_safe k c h2

theorem aper_tag_props (k : ℤ) :
    (replaceAllN (strN ".0") (strN "aperture:f/" ++ formatTenth k)).head? = some 97
    ∧ tagNormalized (replaceAllN (strN ".0") (strN "aperture:f/" ++ formatTenth k))
    ∧ replaceAllN (strN ".0") (strN "aperture:f/" ++ formatTenth k) ≠ [] := by
  have hpat : strN ".0" = [46, 48] := by decide
  have hpre : strN "aperture:f/" = 97 :: [112, 101, 114, 116, 117, 114, 101, 58, 102, 47] := by
    decide
  have hsafe := aper_tag_chars k
  rw [hpat, hpre]
  rw [hpre] at hsafe
  set tail := [112, 101, 114, 116, 117, 114, 101, 58, 102, 47] ++ formatTenth k with htail
  have hcons : (97 :: [112, 101, 114, 116, 117, 114, 101, 58, 102, 47]) ++ formatTenth k
      = 97 :: tail := rfl
  rw [hcons]
  have hgo : replaceAllN [46, 48] (97 :: tail) = 97 :: replaceGo [46, 48] tail.length tail := by
    rw [replaceAllN, List.length_cons]
    exact replaceGo_cons_ne 46 97 [48] tail tail.length (by decide)
  rw [hgo]
  have hsub : ∀ c ∈ 97 :: replaceGo [46, 48] tail.length tail,
      isUpperN c = false ∧ isWSN c = false := by
    intro c hc
    rcases List.mem_cons.mp hc with rfl | hc2
    · exact ⟨by decide, by decide⟩
    · have : c ∈ tail := replaceGo_subset [46, 48] tail.length tail hc2
      exact hsafe c (List.mem_cons_of_mem 97 this)
  exact ⟨rfl, tagNormalized_of_safe _ hsub, by intro he; cases he⟩

theorem focus_tag_props (hi : ℤ) :
    (strN "focus:" ++ intToChars hi ++ strN "mm").head? = some 102
    ∧ tagNormalized (strN "focus:" ++ intToChars hi ++ strN "mm")
    ∧ strN "focus:" ++ intToChars hi ++ strN "mm" ≠ [] := by
  have hf : strN "focus:" = [102, 111, 99, 117, 115, 58] := by decide
  rw [hf]
  refine ⟨rfl, tagNormalized_of_safe _ ?_, by intro he; cases he⟩
  intro c hc
  rcases List.mem_append.mp hc with h1 | h2
  · rcases List.mem_append.mp h1 with h3 | h4
    · clear hc h1
      revert c h3
      decide
    · exact intToChars_safe hi c h4
  · clear hc
    revert c h2
    decide

theorem kitTagList_ok (meta : List (Str × Val)) (l : List Str) (h : kitTagList meta = .ok l) :
    l = [] ∨ ∃ t, l = [t] ∧ t.head? = some 107 ∧ tagNormalized t ∧ t ≠ [] := by
  simp only [kitTagList] at h
  cases hmv : (dictGet meta (strN "CameraModelName")).getD
      ((dictGet meta (strN "Model")).getD (.s [])) with
  | i k => rw [hmv] at h; cases h
  | f q => rw [hmv] at h; cases h
  | s t =>
      rw [hmv] at h
      dsimp only at h
      by_cases hne : stripCamWords (toLowerN t) ≠ []
      · rw [if_pos hne] at h
        injection h with h2
        subst h2
        right
        have hp := kit_tag_props (stripCamWords (toLowerN t)) hne (stripCamWords_getLast _)
        exact ⟨_, rfl, hp.1, hp.2.1, hp.2.2⟩
      · rw [if_neg hne] at h
        injection h with h2
        exact Or.inl h2.symm

theorem aperTagList_ok (meta : List (Str × Val)) (l : List Str) (h : aperTagList meta = .ok l) :
    l = [] ∨ ∃ t, l = [t] ∧ t.head? = some 97 ∧ tagNormalized t ∧ t ≠ [] := by
  simp only [aperTagList] at h
  cases hfv : (dictGet meta (strN "FNumber")).getD (.s []) with
  | i k =>
      rw [hfv] at h
      dsimp only at h
      injection h with h2
      subst h2
      right
      have hp := aper_tag_props (pyRound (10 * (k : ℚ)))
      exact ⟨_, rfl, hp.1, hp.2.1, hp.2.2⟩
  | f q =>
      rw [hfv] at h
      dsimp only at h
      injection h with h2
      subst h2
      right
      have hp := aper_tag_props (pyRound (10 * q))
      exact ⟨_, rfl, hp.1, hp.2.1, hp.2.2⟩
  | s t =>
      rw [hfv] at h
      dsimp only at h
      split at h
      · cases hpf : pyFloatOfStr t with
        | error e => rw [hpf] at h; cases h
        | ok x =>
            rw [hpf] at h
            injection h with h2
            subst h2
            right
            have hp := aper_tag_props (pyRound (10 * x))
            exact ⟨_, rfl, hp.1, hp.2.1, hp.2.2⟩
      · injection h with h2
        exact Or.inl h2.symm

theorem focusTagList_ok (meta : List (Str × Val)) (l : List Str) (h : focusTagList meta = .ok l) :
    l = [] ∨ ∃ t, l = [t] ∧ t.head? = some 102 ∧ tagNormalized t ∧ t ≠ [] := by
  simp only [focusTagList] at h
  set mmv := (dictGet meta (strN "FocalLengthIn35mmFormat")).getD
      ((dictGet meta (strN "FocalLength")).getD (.s [])) with hmmv
  cases hopt : (match mmv with
      | Val.s t => (matchMM t).map Val.s
      | v => some v) with
  | none =>
      rw [hopt] at h
      injection h with h2
      exact Or.inl h2.symm
  | some v =>
      rw [hopt] at h
      dsimp only at h
      split at h
      · cases hrd : _round_to_most_significant_digits v 1 with
        | error e => rw [hrd] at h; cases h
        | ok hi =>
            rw [hrd] at h
            injection h with h2
            subst h2
            right
            have hp := focus_tag_props hi
            exact ⟨_, rfl, hp.1, hp.2.1, hp.2.2⟩
      · injection h with h2
        exact Or.inl h2.symm

theorem singleton_props_disjoint (A B : List Str) (ca cb : Nat) (hne : ca ≠ cb)
    (hA : A = [] ∨ ∃ t, A = [t] ∧ t.head? = some ca ∧ tagNormalized t ∧ t ≠ [])
    (hB : B = [] ∨ ∃ t, B = [t] ∧ t.head? = some cb ∧ tagNormalized t ∧ t ≠ []) :
    List.Disjoint A B := by
  rcases hA with rfl | ⟨ta, rfl, ha1, -, -⟩
  · intro x hx
    cases hx
  · rcases hB with rfl | ⟨tb, rfl, hb1, -, -⟩
    · intro x hx hx2
      cases hx2
    · intro x hx hx2
      rcases List.mem_singleton.mp hx with rfl
      rcases List.mem_singleton.mp hx2 with h3
      exact ne_of_headQ_ne _ _ ca cb ha1 hb1 hne h3

theorem shape_nodup (A : List Str) (ca : Nat)
    (hA : A = [] ∨ ∃ t, A = [t] ∧ t.head? = some ca ∧ tagNormalized t ∧ t ≠ []) :
    A.Nodup := by
  rcases hA with rfl | ⟨ta, rfl, -, -, -⟩
  · exact List.nodup_nil
  · exact List.nodup_singleton ta

theorem shape_props (A : List Str) (ca : Nat)
    (hA : A = [] ∨ ∃ t, A = [t] ∧ t.head? = some ca ∧ tagNormalized t ∧ t ≠ []) :
    ∀ t ∈ A, tagNormalized t ∧ t ≠ [] := by
  rcases hA with rfl | ⟨ta, rfl, -, h2, h3⟩
  · intro t ht
    cases ht
  · intro t ht
    rcases List.mem_singleton.mp ht with rfl
    exact ⟨h2, h3⟩

/-- C9, metadata facet: whenever gen_metadata_tags succeeds, the tag
list has no duplicates and every tag is lowercase, trimmed and
nonempty. -/
theorem gen_metadata_tags_props (meta : List (Str × Val)) (tags : List Str)
    (h : gen_metadata_tags meta = .ok tags) :
    tags.Nodup ∧ ∀ t ∈ tags, tagNormalized t ∧ t ≠ [] := by
  rw [gen_metadata_tags] at h
  split at h
  · cases h
    exact ⟨List.nodup_nil, by intro t ht; cases ht⟩
  · cases hk : kitTagList meta with
    | error e => rw [hk] at h; cases h
    | ok kit =>
        rw [hk] at h
        cases ha : aperTagList meta with
        | error e =>
            rw [show (Except.ok kit >>= fun kit =>
                aperTagList meta >>= fun ap => focusTagList meta >>= fun fo =>
                Except.ok (kit ++ ap ++ fo)) = (aperTagList meta >>= fun ap =>
                focusTagList meta >>= fun fo => Except.ok (kit ++ ap ++ fo)) from rfl,
              ha] at h
            cases h
        | ok ap =>
            rw [show (Except.ok kit >>= fun kit =>
                aperTagList meta >>= fun ap => focusTagList meta >>= fun fo =>
                Except.ok (kit ++ ap ++ fo)) = (aperTagList meta >>= fun ap =>
                focusTagList meta >>= fun fo => Except.ok (kit ++ ap ++ fo)) from rfl,
              ha] at h
            cases hf : focusTagList meta with
            | error e =>
                rw [show ((Except.ok ap : Except Str (List Str)) >>= fun ap =>
                    focusTagList meta >>= fun fo => Except.ok (kit ++ ap ++ fo))
                    = (focusTagList meta >>= fun fo => Except.ok (kit ++ ap ++ fo)) from rfl,
                  hf] at h
                cases h
            | ok fo =>
                rw [show ((Except.ok ap : Except Str (List Str)) >>= fun ap =>
                    focusTagList meta >>= fun fo => Except.ok (kit ++ ap ++ fo))
                    = (focusTagList meta >>= fun fo => Except.ok (kit ++ ap ++ fo)) from rfl,
                  hf] at h
                injection h with h2
                subst h2
                have hK := kitTagList_ok meta kit hk
                have hA := aperTagList_ok meta ap ha
                have hF := focusTagList_ok meta fo hf
                constructor
                · refine ((shape_nodup kit 107 hK).append (shape_nodup ap 97 hA)
                    (singleton_props_disjoint kit ap 107 97 (by norm_num) hK hA)).append
                    (shape_nodup fo 102 hF) ?_
                  intro x hx hx2
                  rcases List.mem_append.mp hx with h1 | h2
                  · exact singleton_props_disjoint kit fo 107 102 (by norm_num) hK hF h1 hx2
                  · exact singleton_props_disjoint ap fo 97 102 (by norm_num) hA hF h2 hx2
                · intro t ht
                  rcases List.mem_append.mp ht with h1 | h2
                  · rcases List.mem_append.mp h1 with h3 | h4
                    · exact shape_props kit 107 hK t h3
                    · exact shape_props ap 97 hA t h4
                  · exact shape_props fo 102 hF t h2

theorem monthNames_facts : ∀ nm ∈ monthNames, nm ≠ [] ∧ ∀ c ∈ nm, isWSN c = false := by
  decide

theorem dayNames_facts : ∀ nm ∈ dayNames, nm ≠ [] ∧ ∀ c ∈ nm, isWSN c = false := by
  decide

theorem ordinalSuffix_facts (n : Nat) :
    ordinalSuffix n ≠ [] ∧ ∀ c ∈ ordinalSuffix n, isWSN c = false := by
  rw [ordinalSuffix]
  repeat' split
  all_goals decide

theorem meridiem_facts (h : Nat) :
    meridiem h ≠ [] ∧ ∀ c ∈ meridiem h, isWSN c = false := by
  rw [meridiem]
  split
  all_goals decide

theorem lower_tag_props (c0 : Nat) (body suffix : Str)
    (hc0w : isWSN (lowerN c0) = false)
    (hsne : suffix ≠ [])
    (hsw : ∀ c ∈ suffix, isWSN c = false) :
    (toLowerN ((c0 :: body) ++ suffix)).head? = some (lowerN c0)
    ∧ tagNormalized (toLowerN ((c0 :: body) ++ suffix))
    ∧ toLowerN ((c0 :: body) ++ suffix) ≠ [] := by
  refine ⟨rfl, ⟨toLowerN_not_upper _, ?_, ?_⟩, ?_⟩
  · intro c hc
    rw [show (toLowerN ((c0 :: body) ++ suffix)).head? = some (lowerN c0) from rfl] at hc
    cases hc
    exact hc0w
  · intro c hc
    rw [toLowerN, List.getLast?_map, List.getLast?_append_of_ne_nil _ hsne] at hc
    obtain ⟨d, hd, rfl⟩ := Option.map_eq_some'.mp hc
    exact lowerN_not_ws d (hsw d (List.mem_of_mem_getLast? hd))
  · intro he
    rw [toLowerN, List.map_eq_nil_iff] at he
    cases he

/-- C9, datetime facet: the datetime tags are duplicate free and every
one of them is lowercase, trimmed and nonempty, for every timestamp. -/
theorem gen_datetime_tags_props (st : Option Arrow) :
    (gen_datetime_tags st).Nodup ∧ ∀ t ∈ gen_datetime_tags st, tagNormalized t ∧ t ≠ [] := by
  cases st with
  | none => exact ⟨List.nodup_nil, by intro t ht; cases ht⟩
  | some a =>
      have hmn : monthNames.getD (a.month - 1) (strN "January") ∈ monthNames := by
        rcases getD_mem_or monthNames (a.month - 1) (strN "January") with h | h
        · exact h
        · rw [h]
          decide
      have hmnf := monthNames_facts _ hmn
      have hdn : dayNames.getD (weekdayIdx a) (strN "Monday") ∈ dayNames := by
        rcases getD_mem_or dayNames (weekdayIdx a) (strN "Monday") with h | h
        · exact h
        · rw [h]
          decide
      have hdnf := dayNames_facts _ hdn
      have hordf := ordinalSuffix_facts a.day
      have hmerf := meridiem_facts (shiftedHourOfDay a)
      have e1 : strN "y:" = [121, 58] := by decide
      have e2 : strN "m:" = [109, 58] := by decide
      have e3 : strN "d:" = [100, 58] := by decide
      have e4 : strN "w:" = [119, 58] := by decide
      have e5 : strN "h:" = [104, 58] := by decide
      have p1h : (([121, 58] ++ padZeroN 4 a.year) : Str).head? = some 121 := rfl
      have p1 : tagNormalized ([121, 58] ++ padZeroN 4 a.year)
          ∧ ([121, 58] ++ padZeroN 4 a.year : Str) ≠ [] := by
        constructor
        · refine tagNormalized_of_safe _ ?_
          intro c hc
          rcases List.mem_append.mp hc with h1 | h2
          · clear hc
            revert c h1
            decide
          · exact padZeroN_safe 4 a.year c h2
        · intro he
          cases he
      have p2 := lower_tag_props 109 (([58] ++ padZeroN 2 a.month) ++ [58])
        (monthNames.getD (a.month - 1) (strN "January")) (by decide) hmnf.1 hmnf.2
      have p3 := lower_tag_props 100
        ((([58] ++ padZeroN 2 a.day) ++ [58]) ++ natToChars a.day)
        (ordinalSuffix a.day) (by decide) hordf.1 hordf.2
      have p4 := lower_tag_props 119 (([58] ++ natToChars (weekdayIdx a)) ++ [58])
        (dayNames.getD (weekdayIdx a) (strN "Monday")) (by decide) hdnf.1 hdnf.2
      have p5 := lower_tag_props 104
        ((([58] ++ padZeroN 2 (shiftedHourOfDay a)) ++ [58])
          ++ natToChars (hour12 (shiftedHourOfDay a)))
        (meridiem (shiftedHourOfDay a)) (by decide) hmerf.1 hmerf.2
      have p2h : (toLowerN ((109 :: (([58] ++ padZeroN 2 a.month) ++ [58]))
          ++ monthNames.getD (a.month - 1) (strN "January"))).head? = some 109 := by
        rw [p2.1]
        decide
      have p3h : (toLowerN ((100 :: ((([58] ++ padZeroN 2 a.day) ++ [58])
          ++ natToChars a.day)) ++ ordinalSuffix a.day)).head? = some 100 := by
        rw [p3.1]
        decide
      have p4h : (toLowerN ((119 :: (([58] ++ natToChars (weekdayIdx a)) ++ [58]))
          ++ dayNames.getD (weekdayIdx a) (strN "Monday"))).head? = some 119 := by
        rw [p4.1]
        decide
      have p5h : (toLowerN ((104 :: ((([58] ++ padZeroN 2 (shiftedHourOfDay a)) ++ [58])
          ++ natToChars (hour12 (shiftedHourOfDay a)))) ++ meridiem (shiftedHourOfDay a))).head?
          = some 104 := by
        rw [p5.1]
        decide
      rw [gen_datetime_tags, e1, e2, e3, e4, e5]
      constructor
      · refine List.nodup_cons.mpr ⟨?_, List.nodup_cons.mpr ⟨?_, List.nodup_cons.mpr
          ⟨?_, List.nodup_cons.mpr ⟨?_, List.nodup_singleton _⟩⟩⟩⟩
        · intro hm
          rcases List.mem_cons.mp hm with h | hm2
          · exact ne_of_headQ_ne _ _ 121 109 p1h p2h (by norm_num) h
          rcases List.mem_cons.mp hm2 with h | hm3
          · exact ne_of_headQ_ne _ _ 121 100 p1h p3h (by norm_num) h
          rcases List.mem_cons.mp hm3 with h | hm4
          · exact ne_of_headQ_ne _ _ 121 119 p1h p4h (by norm_num) h
          rcases List.mem_cons.mp hm4 with h | hm5
          · exact ne_of_headQ_ne _ _ 121 104 p1h p5h (by norm_num) h
          · cases hm5
        · intro hm
          rcases List.mem_cons.mp hm with h | hm2
          · exact ne_of_headQ_ne _ _ 109 100 p2h p3h (by norm_num) h
          rcases List.mem_cons.mp hm2 with h | hm3
          · exact ne_of_headQ_ne _ _ 109 119 p2h p4h (by norm_num) h
          rcases List.mem_cons.mp hm3 with h | hm4
          · exact ne_of_headQ_ne _ _ 109 104 p2h p5h (by norm_num) h
          · cases hm4
        · intro hm
          rcases List.mem_cons.mp hm with h | hm2
          · exact ne_of_headQ_ne _ _ 100 119 p3h p4h (by norm_num) h
          rcases List.mem_cons.mp hm2 with h | hm3
          · exact ne_of_headQ_ne _ _ 100 104 p3h p5h (by norm_num) h
          · cases hm3
        · intro hm
          rcases List.mem_cons.mp hm with h | hm2
          · exact ne_of_headQ_ne _ _ 119 104 p4h p5h (by norm_num) h
          · cases hm2
      · intro t ht
        rcases List.mem_cons.mp ht with rfl | ht2
        · exact p1
        rcases List.mem_cons.mp ht2 with rfl | ht3
        · exact ⟨p2.2.1, p2.2.2⟩
        rcases List.mem_cons.mp ht3 with rfl | ht4
        · exact ⟨p3.2.1, p3.2.2⟩
        rcases List.mem_cons.mp ht4 with rfl | ht5
        · exact ⟨p4.2.1, p4.2.2⟩
        rcases List.mem_cons.mp ht5 with rfl | ht6
        · exact ⟨p5.2.1, p5.2.2⟩
        · cases ht6

/-- C9, normalizer facet: the retag normalization always yields a
duplicate-free list of lowercase, trimmed, nonempty tags. -/
theorem retag_user_tags_props (raw : List Str) :
    (retag_user_tags raw).Nodup ∧ ∀ t ∈ retag_user_tags raw, tagNormalized t ∧ t ≠ [] := by
  constructor
  · exact ((List.mergeSort_perm _ strLeB).nodup_iff).mpr (List.nodup_dedup _)
  · intro t ht
    have ht2 := (List.mergeSort_perm
      (((raw.filter fun r => stripN r ≠ []).map fun r => toLowerN (stripN r)).dedup)
      strLeB).subset ht
    have ht3 := List.mem_dedup.mp ht2
    obtain ⟨r, hr, rfl⟩ := List.mem_map.mp ht3
    have hrne : stripN r ≠ [] := by
      have := (List.mem_filter.mp hr).2
      simpa using this
    refine ⟨⟨toLowerN_not_upper _, ?_, ?_⟩, ?_⟩
    · intro c hc
      rw [toLowerN, List.head?_map] at hc
      obtain ⟨d, hd, rfl⟩ := Option.map_eq_some'.mp hc
      exact lowerN_not_ws d (stripN_head_not_ws r d hd)
    · intro c hc
      rw [toLowerN, List.getLast?_map] at hc
      obtain ⟨d, hd, rfl⟩ := Option.map_eq_some'.mp hc
      exact lowerN_not_ws d (stripN_getLast_not_ws r d hd)
    · intro he
      rw [toLowerN, List.map_eq_nil_iff] at he
      exact hrne he

/-- C9: every tag producer yields a duplicate-free collection whose
tags are lowercase with no leading or trailing whitespace; empty
strings are discarded by the normalization. -/
theorem tag_normalization_invariants :
    (∀ (meta : List (Str × Val)) (tags : List Str), gen_metadata_tags meta = .ok tags →
        tags.Nodup ∧ ∀ t ∈ tags, tagNormalized t ∧ t ≠ [])
    ∧ (∀ st : Option Arrow,
        (gen_datetime_tags st).Nodup ∧ ∀ t ∈ gen_datetime_tags st, tagNormalized t ∧ t ≠ [])
    ∧ (∀ raw : List Str,
        (retag_user_tags raw).Nodup ∧ ∀ t ∈ retag_user_tags raw, tagNormalized t ∧ t ≠ []) :=
  ⟨gen_metadata_tags_props, gen_datetime_tags_props, retag_user_tags_props⟩

/-- Witness for C9: the tag list produced for a one-field metadata
mapping is duplicate free, and its single tag kit:d90 is normalized and
nonempty. -/
theorem tag_normalization_invariants_witness :
    ([strN "kit:d90"] : List Str).Nodup
    ∧ ∀ t ∈ ([strN "kit:d90"] : List Str), tagNormalized t ∧ t ≠ [] :=
  tag_normalization_invariants.1 [(strN "Model", Val.s (strN "NIKON D90"))]
    [strN "kit:d90"] (by decide)

/-- C8 counterexample: an unrecognized ShutterSpeed string makes
read_exif_tags raise, so the FocalLength and Model tags of the same
metadata are NOT derived: the whole call returns the ValueError and no
tag set at all. -/
theorem shutter_parse_error_counterexample :
    read_exif_tags
      [(strN "ShutterSpeed", Val.s (strN "weird")),
       (strN "FocalLength", Val.s (strN "50 mm")),
       (strN "Model", Val.s (strN "NIKON D90"))]
      = .error (strN "cannot parse ShutterSpeed \"weird\"") := by decide

/-- C8 amended: a ShutterSpeed string in an unrecognized format (not of
the form 1/x) raises a ValueError that propagates to the caller of
read_exif_tags and aborts the remaining facets: no FocalLength or
Model tag of the same metadata is derived, whatever those fields hold.
(Stated with the earlier FNumber and ISO facets absent so that the
ShutterSpeed error is the one raised.) -/
theorem shutter_parse_error_aborts (exif : List (Str × Val)) (t : Str)
    (hfn : dictGet exif (strN "FNumber") = none)
    (hiso : dictGet exif (strN "ISO") = none)
    (hss : dictGet exif (strN "ShutterSpeed") = some (.s t))
    (hns : (strN "1/").isPrefixOf t = false) :
    read_exif_tags exif = .error (strN "cannot parse ShutterSpeed \"" ++ t ++ strN "\"") := by
  have hne : exif.isEmpty = false := by
    cases exif with
    | nil =>
        rw [dictGet] at hss
        simp [List.find?] at hss
    | cons p l => rfl
  have hsm : shutterMs (Val.s t)
      = .error (strN "cannot parse ShutterSpeed \"" ++ t ++ strN "\"") := by
    simp only [shutterMs, hns, Bool.false_eq_true, if_false]
  have hstep : shutterStep exif []
      = .error (strN "cannot parse ShutterSpeed \"" ++ t ++ strN "\"") := by
    rw [shutterStep, hss]
    dsimp only
    rw [hsm]
  rw [read_exif_tags, if_neg (by simp [hne])]
  rw [fnumberStep, hfn]
  show isoStep exif [] >>= _ >>= _ >>= _ >>= _ = _
  rw [isoStep, hiso]
  show shutterStep exif [] >>= _ >>= _ >>= _ = _
  rw [hstep]
  rfl

/-- Witness for C8 amended: a one-field metadata whose ShutterSpeed is
the string x yields the propagated ValueError. -/
theorem shutter_parse_error_aborts_witness :
    read_exif_tags [(strN "ShutterSpeed", Val.s (strN "x"))]
      = .error (strN "cannot parse ShutterSpeed \"x\"") :=
  shutter_parse_error_aborts [(strN "ShutterSpeed", Val.s (strN "x"))] (strN "x")
    (by decide) (by decide) (by decide) (by decide)

/-- Witness for C10: the operation appended by the autocontrast mutator
on an empty list is applied with cutoff one half. -/
theorem autocontrast_default_cutoff_witness :
    autocontrastMut [] = [Op.mk (strN "autocontrast") none none none none]
    ∧ _apply_op trigZero (Image.base 4 3) (Op.mk (strN "autocontrast") none none none none)
      = .ok (.autocontrastI (Image.base 4 3) (1 / 2),
          [.applying (Op.mk (strN "autocontrast") none none none none)]) :=
  autocontrast_default_cutoff trigZero [] (Image.base 4 3)
    (Op.mk (strN "autocontrast") none none none none) rfl rfl

end BP
